import Mathlib

/-!
# Verification of the slide-extraction and curation pipeline

A shallow embedding of the algorithmic core of the `ai-youtube-kb` repository:

* `scripts/extract_slides.py` — scene-change detection (`detect_scene_changes`),
  quality filtering (`filter_quality`, `_is_filler_text`), perceptual-hash
  deduplication (`deduplicate`), and transcript alignment
  (`_find_context`, `align_timestamps`);
* `scripts/curation_progress.py` — the progress store
  (`update_video_progress`, `sync_video_progress_from_state`);
* `scripts/sync_slide_metadata.py` — metadata/disk reconciliation
  (`sync_video_metadata`).

Python floats that only feed comparisons are modelled as rationals; image-level
predicates (blur, black-frame, histogram content, perceptual hashes) are
parameters of the embedding, since they are computed by external libraries
(OpenCV, imagehash) from the image files.  Perceptual hashes are modelled as
bit lists (`List Bool`); the Python code keys its dedup map by `str(phash)`,
which is an injective hex rendering of the same bits.
-/

namespace YtKb

/-! ## String helpers

Executable models of the Python string operations used by the pipeline:
`text.split()` (whitespace split dropping empties), substring containment
(`pattern in text`), `str.lower()`, `str.strip()` and `replace('\n', ' ')`.
All are structural recursions over `List Char` so that concrete inputs
evaluate by `decide`/`rfl`.
-/

/-- Words of a character list: maximal runs of non-whitespace characters,
first-argument accumulator holds the (reversed) current run.
Models Python `text.split()`. -/
def wordsAux : List Char → List Char → List (List Char)
  | [], acc => if acc.isEmpty then [] else [acc.reverse]
  | c :: cs, acc =>
    if c.isWhitespace then
      if acc.isEmpty then wordsAux cs [] else acc.reverse :: wordsAux cs []
    else
      wordsAux cs (c :: acc)

/-- `len(text.split())` in Python: number of whitespace-separated words. -/
def wordCount (s : String) : Nat :=
  (wordsAux s.data []).length

/-- Does `pat` occur at the very start of `l`? -/
def patAt : List Char → List Char → Bool
  | [], _ => true
  | _ :: _, [] => false
  | p :: ps, c :: cs => p == c && patAt ps cs

/-- Does `pat` occur as a contiguous substring of `l`?
Models Python `pat in text`. -/
def patIn (pat : List Char) : List Char → Bool
  | [] => pat.isEmpty
  | c :: cs => patAt pat (c :: cs) || patIn pat cs

/-- Python `str.lower()` on the character level. -/
def lowerChars (l : List Char) : List Char :=
  l.map Char.toLower

/-- Python `str.strip()`: drop leading and trailing whitespace. -/
def stripChars (l : List Char) : List Char :=
  ((l.dropWhile Char.isWhitespace).reverse.dropWhile Char.isWhitespace).reverse

/-- Python `' '.join(xs)`. -/
def joinSpace (l : List String) : String :=
  String.intercalate " " l

/-- Python `l[-n:]`: the last `n` elements of a list. -/
def lastN (n : Nat) (l : List α) : List α :=
  l.drop (l.length - n)

/-! ## Configuration (`SlideConfig` dataclass)

Only the fields consumed by the modelled stages are carried; the remaining
dataclass fields (download quality, credit-overlay text, …) are consumed by
I/O-only code outside the embedding.  Defaults follow the dataclass. -/

structure SlideConfig where
  scene_threshold : ℚ := 15 / 100
  phash_threshold : Nat := 10
  min_ocr_words : Nat := 10
  remove_duplicates : Bool := true
  filter_filler_text : Bool := true
  filter_blurry : Bool := true
  blur_threshold : ℚ := 100
  deriving DecidableEq, Repr

/-! ## Slide records (`SlideInfo` dataclass) -/

/-- The per-slide `transcript_context` dictionary once populated by
`_find_context` (three string fields). -/
structure TranscriptContext where
  before : String
  during : String
  after : String
  deriving DecidableEq, Repr

/-- `SlideInfo` dataclass.  `transcript_context` defaults to the *empty*
dictionary in the source (`field(default_factory=dict)`); we model the empty
dictionary as `none` and a populated three-field dictionary as `some`.
The `path` field stands for the file name (`slide.path.name`). -/
structure SlideInfo where
  path : String
  timestamp : ℚ
  timestamp_formatted : String
  ocr_text : String := ""
  perceptual_hash : Option (List Bool) := none
  is_duplicate_of : Option String := none
  transcript_context : Option TranscriptContext := none
  deriving DecidableEq, Repr

/-! ## Curation progress store (`curation_progress.py`)

The per-video record and the `**updates` keyword dictionary passed to
`update_video_progress`.  Timestamp-valued bookkeeping keys
(`last_updated`, `reviewed_date`, …) carry wall-clock strings that no claim
depends on; they are omitted.  `none` in an update field means the key is
absent from the `updates` dictionary. -/

structure VideoRecord where
  status : String := "pending"
  reviewed : Bool := false
  credits_added : Bool := false
  duplicates_fixed : Bool := false
  metadata_synced : Bool := false
  slides_kept : Option Nat := none
  slides_removed : Option Nat := none
  deriving DecidableEq, Repr

structure ProgressUpdates where
  status : Option String := none
  reviewed : Option Bool := none
  credits_added : Option Bool := none
  duplicates_fixed : Option Bool := none
  metadata_synced : Option Bool := none
  slides_kept : Option Nat := none
  slides_removed : Option Nat := none
  action : Option String := none
  deriving DecidableEq, Repr

/-- Is the `updates` dictionary empty (Python `if updates:` falsy test)? -/
def ProgressUpdates.isEmpty (u : ProgressUpdates) : Bool :=
  u.status.isNone && u.reviewed.isNone && u.credits_added.isNone &&
  u.duplicates_fixed.isNone && u.metadata_synced.isNone &&
  u.slides_kept.isNone && u.slides_removed.isNone && u.action.isNone

/-- The `for key, value in updates.items(): record[key] = value` loop. -/
def applyUpdates (r : VideoRecord) (u : ProgressUpdates) : VideoRecord where
  status := u.status.getD r.status
  reviewed := u.reviewed.getD r.reviewed
  credits_added := u.credits_added.getD r.credits_added
  duplicates_fixed := u.duplicates_fixed.getD r.duplicates_fixed
  metadata_synced := u.metadata_synced.getD r.metadata_synced
  slides_kept := u.slides_kept.or r.slides_kept
  slides_removed := u.slides_removed.or r.slides_removed

/-- The status-derivation block of `update_video_progress`
(`curation_progress.py`, lines 80–92). -/
def deriveStatus (reviewed credits_added metadata_synced : Bool) : String :=
  if metadata_synced && credits_added && reviewed then "completed"
  else if credits_added then "credits_added"
  else if reviewed then "reviewed"
  else "pending"

/-- `update_video_progress` restricted to one video's record: apply the
updates, then overwrite `status` with the derived value.  (Audit-log append
and file save are store-level I/O with no effect on the record.) -/
def update_video_progress (r : VideoRecord) (u : ProgressUpdates) : VideoRecord :=
  let r' := applyUpdates r u
  { r' with status := deriveStatus r'.reviewed r'.credits_added r'.metadata_synced }

/-- The file-inspection verdict computed by `detect_video_state`.  The
booleans are derived from metadata keys and a pixel scan of the first slide
image; the claims treat them as given evidence. -/
structure DetectedState where
  has_been_reviewed : Bool := false
  has_credits_in_metadata : Bool := false
  has_credits_in_images : Bool := false
  metadata_synced : Bool := false
  slide_count : Nat := 0
  deriving DecidableEq, Repr

/-- `sync_video_progress_from_state` (`curation_progress.py`, lines 246–291)
restricted to one video's record: build the `updates` dictionary from the
detected evidence and apply `update_video_progress` if it is non-empty.
Date keys are omitted (see module comment). -/
def sync_video_progress_from_state (d : DetectedState) (r : VideoRecord) : VideoRecord :=
  let u0 : ProgressUpdates := {}
  let u1 := if d.has_been_reviewed then { u0 with reviewed := some true } else u0
  let u2 := if d.has_credits_in_metadata || d.has_credits_in_images then
              { u1 with credits_added := some true } else u1
  let u3 := if d.metadata_synced then { u2 with metadata_synced := some true } else u2
  let u4 := if d.slide_count ≠ 0 && r.slides_kept.isNone then
              { u3 with slides_kept := some d.slide_count } else u3
  if u4.isEmpty then r
  else update_video_progress (r) { u4 with action := some "synced_from_state" }

/-! ## Quality filter (`filter_quality`, `_is_filler_text`)

The image-only predicates are parameters on the slide's file path:
`isBlurry path` stands for `_is_blurry(slide.path, cfg.blur_threshold)` and
`isMostlyBlack path` for `_is_mostly_black(slide.path)` (OpenCV pixel
statistics of the image file). -/

/-- The `filler_patterns` list of `_is_filler_text`, verbatim. -/
def filler_patterns : List String :=
  ["copyright", "©", "registered trademark", "®", "all rights reserved",
   "siliconangle", "thecube", "the cube", "silicon angle", "thecuberesearch",
   "go to thecuberesearch.com", "thecuberesearch.com",
   "thank you", "questions?", "q & a", "q&a", "your views", "let us know",
   "contact us", "linkedin.com/in",
   "ai agent builder summit", "speed your way to roi",
   "next frontiers of ai", "the next frontiers"]

/-- `SlideExtractor._is_filler_text` (`extract_slides.py`, lines 393–430). -/
def is_filler_text (text : String) : Bool :=
  if text.data.isEmpty then true
  else
    let textLower := lowerChars text.data
    let fillerCount := (filler_patterns.filter (fun p => patIn p.data textLower)).length
    let wc := wordCount text
    if wc < 5 then true
    else if fillerCount > 0 && wc < 25 then true
    else if fillerCount ≥ 2 && wc < 30 then true
    else false

inductive RejectReason where
  | blurry
  | mostly_black
  | low_text
  | filler_text
  deriving DecidableEq, Repr

/-- The `removed_reasons` tally dictionary of `filter_quality`. -/
structure RemovedReasons where
  low_text : Nat := 0
  filler_text : Nat := 0
  mostly_black : Nat := 0
  blurry : Nat := 0
  deriving DecidableEq, Repr

/-- One loop iteration of `filter_quality`: the reason under which a slide
is rejected, or `none` if it survives.  Transcribes the if/`continue` chain
of `extract_slides.py`, lines 483–508. -/
def rejectReasonOf (cfg : SlideConfig) (isBlurry isMostlyBlack : String → Bool)
    (s : SlideInfo) : Option RejectReason :=
  if cfg.filter_blurry && isBlurry s.path then some .blurry
  else if isMostlyBlack s.path then some .mostly_black
  else if wordCount s.ocr_text < cfg.min_ocr_words then some .low_text
  else if cfg.filter_filler_text && is_filler_text s.ocr_text then some .filler_text
  else none

/-- `SlideExtractor.filter_quality` (`extract_slides.py`, lines 473–513):
the surviving slides in order, plus the per-reason rejection tally.  Each
loop iteration evaluates the if/`continue` chain — transcribed by
`rejectReasonOf` above, with the checks in the source's order — and either
bumps the matching tally and skips the slide, or appends it to `filtered`. -/
def filter_quality (cfg : SlideConfig) (isBlurry isMostlyBlack : String → Bool) :
    List SlideInfo → List SlideInfo × RemovedReasons
  | [] => ([], {})
  | s :: rest =>
    let (f, c) := filter_quality cfg isBlurry isMostlyBlack rest
    match rejectReasonOf cfg isBlurry isMostlyBlack s with
    | some .blurry => (f, { c with blurry := c.blurry + 1 })
    | some .mostly_black => (f, { c with mostly_black := c.mostly_black + 1 })
    | some .low_text => (f, { c with low_text := c.low_text + 1 })
    | some .filler_text => (f, { c with filler_text := c.filler_text + 1 })
    | none => (s :: f, c)

/-- Spec-side reading of the precedence contract: the ordered check list
`[blurry, mostly_black, low_text, filler_text]`, each paired with whether it
matches; the reported reason is the first matching entry. -/
def orderedChecks (cfg : SlideConfig) (isBlurry isMostlyBlack : String → Bool)
    (s : SlideInfo) : List (RejectReason × Bool) :=
  [(.blurry, cfg.filter_blurry && isBlurry s.path),
   (.mostly_black, isMostlyBlack s.path),
   (.low_text, decide (wordCount s.ocr_text < cfg.min_ocr_words)),
   (.filler_text, cfg.filter_filler_text && is_filler_text s.ocr_text)]

/-- First matching check in the fixed order, per the spec's words. -/
def firstMatchingCheck (cfg : SlideConfig) (isBlurry isMostlyBlack : String → Bool)
    (s : SlideInfo) : Option RejectReason :=
  (((orderedChecks cfg isBlurry isMostlyBlack s).filter (·.2)).head?).map (·.1)

/-! ## Deduplication (`deduplicate`)

`phashOf path` stands for `imagehash.phash(Image.open(slide.path))`;
`none` models the hash computation raising an exception.  The `hash_map`
dictionary (insertion-ordered in Python) is a list of `(slide, hash)` pairs
in insertion order; `str(phash)` keys are injective in the hash bits, and a
new entry is only ever inserted when its Hamming distance to every present
entry exceeds the (nonnegative) threshold, so its key is always fresh and
insertion is exactly an append. -/

/-- Hamming distance between bit lists: `phash - existing_phash` in
imagehash (count of differing positions). -/
def hammingDist : List Bool → List Bool → Nat
  | [], _ => 0
  | _ :: _, [] => 0
  | a :: as, b :: bs => (if a ≠ b then 1 else 0) + hammingDist as bs

/-- The inner `for existing_hash, (existing_slide, existing_phash) in
hash_map.items()` loop: first kept slide (in insertion order) whose hash is
within `threshold` of `h`, if any. -/
def findDup (threshold : Nat) (h : List Bool) :
    List (SlideInfo × List Bool) → Option SlideInfo
  | [] => none
  | (t, ht) :: rest =>
    if hammingDist h ht ≤ threshold then some t else findDup threshold h rest

/-- Per-slide outcome of the dedup loop, used to reason about attribution. -/
inductive DedupOutcome where
  | kept
  | dup (t : SlideInfo)
  | hashError
  deriving DecidableEq, Repr

/-- The main loop of `SlideExtractor.deduplicate` (`extract_slides.py`,
lines 527–556), threading the `hash_map`: returns the per-slide trace (in
input order) and the final `hash_map`.  A slide whose hash computation fails
is traced `hashError` (the `except` branch appends it to `result` without
touching `hash_map`); a slide within threshold of a kept slide is traced
`dup t` where `t` is the first match — in mark mode
(`remove_duplicates = false`) its `is_duplicate_of` field is set to `t`'s
file name, in remove mode it is left unchanged; in *both* modes the
`result.append` at line 553 is guarded by `if not is_duplicate`, so a `dup`
slide is not appended. -/
def dedupGo (cfg : SlideConfig) (phashOf : String → Option (List Bool)) :
    List (SlideInfo × List Bool) → List SlideInfo →
    List (SlideInfo × DedupOutcome) × List (SlideInfo × List Bool)
  | kept, [] => ([], kept)
  | kept, s :: rest =>
    match phashOf s.path with
    | none =>
      let (tr, fin) := dedupGo cfg phashOf kept rest
      ((s, .hashError) :: tr, fin)
    | some h =>
      let s' := { s with perceptual_hash := some h }
      match findDup cfg.phash_threshold h kept with
      | some t =>
        let (tr, fin) := dedupGo cfg phashOf kept rest
        (((if cfg.remove_duplicates then s'
           else { s' with is_duplicate_of := some t.path }), .dup t) :: tr, fin)
      | none =>
        let (tr, fin) := dedupGo cfg phashOf (kept ++ [(s', h)]) rest
        ((s', .kept) :: tr, fin)

/-- The `result` list: slides appended by the loop (kept slides and
hash-error slides), in order. -/
def dedupResult : List (SlideInfo × DedupOutcome) → List SlideInfo
  | [] => []
  | (s, .kept) :: tr => s :: dedupResult tr
  | (s, .hashError) :: tr => s :: dedupResult tr
  | (_, .dup _) :: tr => dedupResult tr

/-- The per-slide trace of a run of `deduplicate` from an empty `hash_map`. -/
def dedupTrace (cfg : SlideConfig) (phashOf : String → Option (List Bool))
    (slides : List SlideInfo) : List (SlideInfo × DedupOutcome) :=
  (dedupGo cfg phashOf [] slides).1

/-- The final `hash_map` of a run of `deduplicate`. -/
def dedupKept (cfg : SlideConfig) (phashOf : String → Option (List Bool))
    (slides : List SlideInfo) : List (SlideInfo × List Bool) :=
  (dedupGo cfg phashOf [] slides).2

/-- `SlideExtractor.deduplicate` (`extract_slides.py`, lines 515–561):
the returned `result` list. -/
def deduplicate (cfg : SlideConfig) (phashOf : String → Option (List Bool))
    (slides : List SlideInfo) : List SlideInfo :=
  if slides.isEmpty then slides
  else dedupResult (dedupGo cfg phashOf [] slides).1

/-! ## Scene-change detection (`detect_scene_changes`)

`hist f` stands for `_compute_histogram(frame.path)` (`none` when the image
cannot be read); `isChange prev curr` stands for
`1 - cv2.compareHist(prev, curr, HISTCMP_CORREL) > cfg.scene_threshold`.
The frame type `F` and histogram type `H` are parameters: the properties
proved hold for every histogram/correlation function, in particular the
OpenCV ones. -/

/-- The `for frame in frames[1:]` loop of `detect_scene_changes`
(`extract_slides.py`, lines 245–258): `prev` is the previous readable
histogram; unreadable frames are skipped, and `prev` advances to the current
histogram whether or not the frame became a candidate. -/
def sceneLoop {F H : Type} (hist : F → Option H) (isChange : H → H → Bool) :
    H → List F → List F
  | _, [] => []
  | prev, f :: rest =>
    match hist f with
    | none => sceneLoop hist isChange prev rest
    | some curr =>
      if isChange prev curr then f :: sceneLoop hist isChange curr rest
      else sceneLoop hist isChange curr rest

/-- `SlideExtractor.detect_scene_changes` (`extract_slides.py`,
lines 232–260). -/
def detect_scene_changes {F H : Type} (hist : F → Option H)
    (isChange : H → H → Bool) (frames : List F) : List F :=
  match frames with
  | [] => []
  | f :: rest =>
    match hist f with
    | none => [f]
    | some h0 => f :: sceneLoop hist isChange h0 rest

/-! ## Transcript alignment (`_find_context`, `align_timestamps`) -/

/-- A transcript segment `{start, duration, text}`. -/
structure TranscriptSegment where
  start : ℚ
  duration : ℚ
  text : String
  deriving DecidableEq, Repr

/-- `seg.get('text', '').strip().replace('\n', ' ')`. -/
def cleanSegText (s : String) : String :=
  ⟨(stripChars s.data).map (fun c => if c = '\n' then ' ' else c)⟩

/-- The `for seg in segments` loop of `_find_context` (`extract_slides.py`,
lines 581–595), accumulating the `before`, `during`, `after` lists;
`continue` skips a segment ending before the window, `break` abandons the
rest of the list at the first segment starting after the window. -/
def contextLoop (t wb wa : ℚ) : List TranscriptSegment →
    List String × List String × List String
  | [] => ([], [], [])
  | seg :: rest =>
    let segEnd := seg.start + seg.duration
    let text := cleanSegText seg.text
    if segEnd < t - wb then contextLoop t wb wa rest
    else if seg.start > t + wa then ([], [], [])
    else if segEnd ≤ t then
      let r := contextLoop t wb wa rest
      (text :: r.1, r.2.1, r.2.2)
    else if seg.start ≥ t then
      let r := contextLoop t wb wa rest
      (r.1, r.2.1, text :: r.2.2)
    else
      let r := contextLoop t wb wa rest
      (r.1, text :: r.2.1, r.2.2)

/-- `SlideExtractor._find_context` (`extract_slides.py`, lines 574–601):
join the last 4 `before` segments, all `during` segments and the first 4
`after` segments with spaces.  Window defaults are 15 seconds each way. -/
def find_context (t : ℚ) (segments : List TranscriptSegment)
    (wb : ℚ := 15) (wa : ℚ := 15) : TranscriptContext :=
  let r := contextLoop t wb wa segments
  ⟨joinSpace (lastN 4 r.1), joinSpace r.2.1, joinSpace (r.2.2.take 4)⟩

/-- `SlideExtractor.align_timestamps` (`extract_slides.py`, lines 603–613):
with no transcript segments the slides are returned untouched (their
`transcript_context` stays whatever it was, the empty dictionary for fresh
slides); otherwise every slide's context is overwritten. -/
def align_timestamps (segments : List TranscriptSegment)
    (slides : List SlideInfo) : List SlideInfo :=
  if segments.isEmpty then slides
  else slides.map fun s =>
    { s with transcript_context := some (find_context s.timestamp segments) }

/-- Spec-side windowing predicate: does `[start, start+duration]` overlap
`[t-wb, t+wa]`? -/
def segQualifies (t wb wa : ℚ) (seg : TranscriptSegment) : Bool :=
  decide (t - wb ≤ seg.start + seg.duration) && decide (seg.start ≤ t + wa)

/-- Spec-side classification of a qualifying segment relative to the slide
timestamp (same precedence as the source: ends-at-or-before, then
starts-at-or-after, else spans). -/
inductive SegClass where
  | before
  | during
  | after
  deriving DecidableEq, Repr

def segClassOf (t : ℚ) (seg : TranscriptSegment) : SegClass :=
  if seg.start + seg.duration ≤ t then .before
  else if seg.start ≥ t then .after
  else .during

/-- Spec-side list of cleaned texts of qualifying segments of class `c`. -/
def classTexts (t wb wa : ℚ) (c : SegClass) (segments : List TranscriptSegment) :
    List String :=
  (segments.filter (fun seg => segQualifies t wb wa seg && segClassOf t seg == c)).map
    (fun seg => cleanSegText seg.text)

/-! ## Metadata/disk reconciliation (`sync_video_metadata`)

The metadata file is modelled by the fields the sync touches; the set of
slide image files actually present in the video directory
(`{f.name for f in slide_dir.glob('slide_*.png')}`) is a `Finset String`. -/

structure MetadataStats where
  slides_detected : Nat := 0
  unique_slides : Nat := 0
  duplicates : Nat := 0
  deriving DecidableEq, Repr

structure VideoMetadata where
  slides : List String := []
  stats : MetadataStats := {}
  metadata_synced : Bool := false
  deriving DecidableEq, Repr

/-- The result dictionary of `sync_video_metadata`.  `orphaned` is `none`
when the key is absent (the already-in-sync branch); callers read it with
`result.get('orphaned', 0)`. -/
structure SyncResult where
  synced : Bool
  removed : Nat
  added : Nat
  orphaned : Option Nat
  current_count : Nat
  deriving DecidableEq, Repr

/-- `sync_video_metadata` (`sync_slide_metadata.py`, lines 34–109) for a
video whose metadata file exists: returns the metadata as left on disk and
the result dictionary.  In dry-run mode the metadata is untouched. -/
def sync_video_metadata (metadata : VideoMetadata) (actual_files : Finset String)
    (dry_run : Bool) : VideoMetadata × SyncResult :=
  let metadata_files : Finset String := metadata.slides.toFinset
  let missing_files := metadata_files \ actual_files
  let orphaned_files := actual_files \ metadata_files
  if missing_files = ∅ ∧ orphaned_files = ∅ then
    (metadata,
     { synced := true, removed := 0, added := 0, orphaned := none,
       current_count := actual_files.card })
  else
    let metadata' :=
      if dry_run then metadata
      else
        let slides' :=
          if missing_files ≠ ∅ then
            metadata.slides.filter (fun f => f ∈ actual_files)
          else metadata.slides
        { slides := slides',
          stats := { slides_detected := actual_files.card,
                     unique_slides := actual_files.card,
                     duplicates := 0 },
          metadata_synced := true }
    (metadata',
     { synced := !dry_run, removed := missing_files.card, added := 0,
       orphaned := some orphaned_files.card, current_count := actual_files.card })

/-! ## Concrete fixtures for witnesses and counterexamples -/

/-- A first slide for the dedup examples. -/
def slideA : SlideInfo :=
  { path := "slide_0m00s_aaaaaaaa.png", timestamp := 0,
    timestamp_formatted := "0m00s", ocr_text := "alpha" }

/-- A second slide whose perceptual hash coincides with `slideA`'s. -/
def slideB : SlideInfo :=
  { path := "slide_0m02s_bbbbbbbb.png", timestamp := 2,
    timestamp_formatted := "0m02s", ocr_text := "beta" }

/-- A third slide whose hash computation fails. -/
def slideC : SlideInfo :=
  { path := "slide_0m04s_cccccccc.png", timestamp := 4,
    timestamp_formatted := "0m04s", ocr_text := "gamma" }

/-- Hash function for the examples: `slideA` and `slideB` hash to the same
bits (Hamming distance 0 ≤ threshold), `slideC`'s hash computation raises. -/
def examplePhash (p : String) : Option (List Bool) :=
  if p = slideA.path then some [true, false]
  else if p = slideB.path then some [true, false]
  else none

/-- Mark-mode configuration (`remove_duplicates = False`), otherwise default. -/
def markConfig : SlideConfig := { remove_duplicates := false }

/-- The spec's scenario slide: OCR text "Copyright 2025 Acme Corp"
(4 words, filler by content). -/
def copyrightSlide : SlideInfo :=
  { path := "slide_1m00s_dddddddd.png", timestamp := 60,
    timestamp_formatted := "1m00s", ocr_text := "Copyright 2025 Acme Corp" }

/-! # Theorems -/

/-- **C2.** For every video record and every update set, the stored `status`
after `update_video_progress` equals the pure derivation from the boolean
flags (completed iff reviewed ∧ credits_added ∧ metadata_synced, else
credits_added, else reviewed, else pending); a `status` value passed in the
updates never survives the call; and a record with `reviewed = true`,
`credits_added = true`, `metadata_synced = false` derives
`status = "credits_added"`. -/
theorem c2_status_is_derived (r : VideoRecord) (u : ProgressUpdates) (s : String) :
    (update_video_progress r u).status =
      deriveStatus (applyUpdates r u).reviewed (applyUpdates r u).credits_added
        (applyUpdates r u).metadata_synced ∧
    update_video_progress r u = update_video_progress r { u with status := some s } ∧
    deriveStatus true true false = "credits_added" := by
  refine ⟨rfl, ?_, rfl⟩
  simp [update_video_progress, applyUpdates]

/-- **C9.** `sync_video_progress_from_state` is monotone on the progress
flags: the `reviewed`, `credits_added` and `metadata_synced` flags after
reconciliation are each at least their prior values — detection only ever
raises a flag to `true`, never lowers one. -/
theorem c9_sync_monotone (d : DetectedState) (r : VideoRecord) :
    r.reviewed ≤ (sync_video_progress_from_state d r).reviewed ∧
    r.credits_added ≤ (sync_video_progress_from_state d r).credits_added ∧
    r.metadata_synced ≤ (sync_video_progress_from_state d r).metadata_synced := by
  unfold sync_video_progress_from_state
  dsimp only []
  split_ifs <;>
    simp_all [update_video_progress, applyUpdates, ProgressUpdates.isEmpty,
      Bool.le_true, le_refl]

/-- **C3.** After `sync_video_metadata` with `dry_run = false`, the set of
filenames in `metadata.slides` is exactly the intersection of the previous
metadata filenames with the slide files present on disk; files on disk that
were not in the metadata are counted in the reported result (read with
`.get('orphaned', 0)`) but are never added to `metadata.slides`. -/
theorem c3_sync_convergence (metadata : VideoMetadata) (actual : Finset String) :
    ((sync_video_metadata metadata actual false).1).slides.toFinset =
      metadata.slides.toFinset ∩ actual ∧
    (∀ f ∈ ((sync_video_metadata metadata actual false).1).slides,
      f ∈ metadata.slides) ∧
    ((sync_video_metadata metadata actual false).2).orphaned.getD 0 =
      (actual \ metadata.slides.toFinset).card := by
  unfold sync_video_metadata
  by_cases hsync : metadata.slides.toFinset \ actual = ∅ ∧
      actual \ metadata.slides.toFinset = ∅
  · rw [if_pos hsync]
    refine ⟨?_, fun f hf => hf, ?_⟩
    · have hsub : metadata.slides.toFinset ⊆ actual :=
        Finset.sdiff_eq_empty_iff_subset.mp hsync.1
      exact (Finset.inter_eq_left.mpr hsub).symm
    · simp [hsync.2]
  · rw [if_neg hsync]
    dsimp only []
    refine ⟨?_, ?_, rfl⟩
    · by_cases hmiss : metadata.slides.toFinset \ actual ≠ ∅
      · rw [if_pos hmiss]
        ext x
        simp [List.mem_filter]
      · rw [if_neg hmiss]
        push_neg at hmiss
        have hsub : metadata.slides.toFinset ⊆ actual :=
          Finset.sdiff_eq_empty_iff_subset.mp hmiss
        exact (Finset.inter_eq_left.mpr hsub).symm
    · intro f hf
      by_cases hmiss : metadata.slides.toFinset \ actual ≠ ∅
      · rw [if_pos hmiss] at hf
        exact (List.mem_filter.mp hf).1
      · rw [if_neg hmiss] at hf
        exact hf

/-- The scene-change loop only ever emits frames of its input, in order. -/
theorem sceneLoop_sublist {F H : Type} (hist : F → Option H)
    (isChange : H → H → Bool) (prev : H) (rest : List F) :
    (sceneLoop hist isChange prev rest).Sublist rest := by
  induction rest generalizing prev with
  | nil => simp [sceneLoop]
  | cons f rest ih =>
    unfold sceneLoop
    cases hist f with
    | none => exact (ih prev).cons f
    | some curr =>
      by_cases hc : isChange prev curr = true
      · simp only [hc, if_true]
        exact (ih curr).cons₂ f
      · simp only [hc, if_false]
        exact (ih curr).cons f

/-- **C5.** For every frame sequence, `detect_scene_changes` returns a
subsequence of the input (order preserved), and for a non-empty input the
first frame of the input is the first element of the output.  This holds for
every histogram function (including unreadable frames) and every
change predicate, in particular the OpenCV correlation test. -/
theorem c5_scene_subsequence {F H : Type} (hist : F → Option H)
    (isChange : H → H → Bool) (frames : List F) :
    (detect_scene_changes hist isChange frames).Sublist frames ∧
    (frames ≠ [] →
      (detect_scene_changes hist isChange frames).head? = frames.head?) := by
  constructor
  · match frames with
    | [] => simp [detect_scene_changes]
    | f :: rest =>
      unfold detect_scene_changes
      cases hh : hist f with
      | none =>
        simp only [hh]
        exact (List.nil_sublist rest).cons₂ f
      | some h0 =>
        simp only [hh]
        exact (sceneLoop_sublist hist isChange h0 rest).cons₂ f
  · intro hne
    match frames with
    | f :: rest =>
      unfold detect_scene_changes
      cases hh : hist f <;> simp [hh]

/-- Witness for C5: a concrete three-frame sequence (frames are numbers,
histograms are the frames themselves, a change is any difference) where the
detector keeps the first and third frame. -/
theorem c5_scene_subsequence_witness :
    ([0, 0, 1] : List Nat) ≠ [] ∧
    (detect_scene_changes (fun n => some n) (fun a b => a != b)
        [0, 0, 1]).Sublist [0, 0, 1] ∧
    (detect_scene_changes (fun n => some n) (fun a b => a != b)
        [0, 0, 1]).head? = ([0, 0, 1] : List Nat).head? :=
  ⟨by decide,
   (c5_scene_subsequence (fun n => some n) (fun a b => a != b) [0, 0, 1]).1,
   (c5_scene_subsequence (fun n => some n) (fun a b => a != b) [0, 0, 1]).2
     (by decide)⟩

/-- The rejection reason computed by the `filter_quality` loop body is the
first matching entry of the ordered check list. -/
theorem rejectReasonOf_eq_firstMatching (cfg : SlideConfig)
    (iB iMB : String → Bool) (s : SlideInfo) :
    rejectReasonOf cfg iB iMB s = firstMatchingCheck cfg iB iMB s := by
  unfold rejectReasonOf firstMatchingCheck orderedChecks
  split_ifs with h1 h2 h3 h4 <;> simp_all

/-- `filter_quality` keeps exactly the slides with no rejection reason and
tallies each rejected slide under its (single) reason. -/
theorem filter_quality_spec (cfg : SlideConfig) (iB iMB : String → Bool)
    (slides : List SlideInfo) :
    filter_quality cfg iB iMB slides =
      (slides.filter (fun s => (rejectReasonOf cfg iB iMB s).isNone),
       { low_text :=
           slides.countP (fun s => rejectReasonOf cfg iB iMB s == some .low_text),
         filler_text :=
           slides.countP (fun s => rejectReasonOf cfg iB iMB s == some .filler_text),
         mostly_black :=
           slides.countP (fun s => rejectReasonOf cfg iB iMB s == some .mostly_black),
         blurry :=
           slides.countP (fun s => rejectReasonOf cfg iB iMB s == some .blurry) }) := by
  induction slides with
  | nil => rfl
  | cons s rest ih =>
    unfold filter_quality
    rw [ih]
    cases hr : rejectReasonOf cfg iB iMB s with
    | none => simp [hr, List.countP_cons, List.filter_cons]
    | some r => cases r <;> simp [hr, List.countP_cons, List.filter_cons]

/-- **C4.** The quality checks are applied in the fixed order blurry,
mostly_black, low_text, filler_text: the first matching check is the single
reason a slide is rejected and counted under, the survivors are exactly the
slides matching no check, and the scenario slide with OCR text
"Copyright 2025 Acme Corp" (4 words) is rejected as `low_text` under the
default configuration even though its text also satisfies the filler
criteria. -/
theorem c4_filter_precedence (cfg : SlideConfig) (iB iMB : String → Bool)
    (slides : List SlideInfo) :
    (∀ s, rejectReasonOf cfg iB iMB s = firstMatchingCheck cfg iB iMB s) ∧
    (filter_quality cfg iB iMB slides).1 =
      slides.filter (fun s => (rejectReasonOf cfg iB iMB s).isNone) ∧
    (filter_quality cfg iB iMB slides).2 =
      { low_text :=
          slides.countP (fun s => rejectReasonOf cfg iB iMB s == some .low_text),
        filler_text :=
          slides.countP (fun s => rejectReasonOf cfg iB iMB s == some .filler_text),
        mostly_black :=
          slides.countP (fun s => rejectReasonOf cfg iB iMB s == some .mostly_black),
        blurry :=
          slides.countP (fun s => rejectReasonOf cfg iB iMB s == some .blurry) } ∧
    rejectReasonOf {} (fun _ => false) (fun _ => false) copyrightSlide =
      some .low_text ∧
    is_filler_text copyrightSlide.ocr_text = true ∧
    wordCount copyrightSlide.ocr_text = 4 :=
  ⟨fun s => rejectReasonOf_eq_firstMatching cfg iB iMB s,
   congrArg Prod.fst (filter_quality_spec cfg iB iMB slides),
   congrArg Prod.snd (filter_quality_spec cfg iB iMB slides),
   by decide, by decide, by decide⟩

/-! ### Deduplication lemmas -/

theorem dedupGo_nil (cfg : SlideConfig) (phashOf : String → Option (List Bool))
    (kept : List (SlideInfo × List Bool)) :
    dedupGo cfg phashOf kept [] = ([], kept) := rfl

theorem dedupGo_cons_err (cfg : SlideConfig) (phashOf : String → Option (List Bool))
    (kept : List (SlideInfo × List Bool)) (s : SlideInfo) (rest : List SlideInfo)
    (h : phashOf s.path = none) :
    dedupGo cfg phashOf kept (s :: rest) =
      ((s, .hashError) :: (dedupGo cfg phashOf kept rest).1,
       (dedupGo cfg phashOf kept rest).2) := by
  simp [dedupGo, h]

theorem dedupGo_cons_dup (cfg : SlideConfig) (phashOf : String → Option (List Bool))
    (kept : List (SlideInfo × List Bool)) (s : SlideInfo) (rest : List SlideInfo)
    (hb : List Bool) (t : SlideInfo) (h : phashOf s.path = some hb)
    (hf : findDup cfg.phash_threshold hb kept = some t) :
    dedupGo cfg phashOf kept (s :: rest) =
      (((if cfg.remove_duplicates then { s with perceptual_hash := some hb }
         else { s with perceptual_hash := some hb, is_duplicate_of := some t.path }),
        .dup t) :: (dedupGo cfg phashOf kept rest).1,
       (dedupGo cfg phashOf kept rest).2) := by
  simp [dedupGo, h, hf]

theorem dedupGo_cons_new (cfg : SlideConfig) (phashOf : String → Option (List Bool))
    (kept : List (SlideInfo × List Bool)) (s : SlideInfo) (rest : List SlideInfo)
    (hb : List Bool) (h : phashOf s.path = some hb)
    (hf : findDup cfg.phash_threshold hb kept = none) :
    dedupGo cfg phashOf kept (s :: rest) =
      (({ s with perceptual_hash := some hb }, .kept) ::
        (dedupGo cfg phashOf
          (kept ++ [({ s with perceptual_hash := some hb }, hb)]) rest).1,
       (dedupGo cfg phashOf
         (kept ++ [({ s with perceptual_hash := some hb }, hb)]) rest).2) := by
  simp [dedupGo, h, hf]

/-- If the dup search fails, every kept hash is farther than the threshold. -/
theorem findDup_eq_none_forall {th : Nat} {h : List Bool}
    {kept : List (SlideInfo × List Bool)} (hf : findDup th h kept = none) :
    ∀ e ∈ kept, th < hammingDist h e.2 := by
  induction kept with
  | nil => intro e he; cases he
  | cons e' rest ih =>
    intro e he
    obtain ⟨t', ht'⟩ := e'
    unfold findDup at hf
    by_cases hle : hammingDist h ht' ≤ th
    · simp [hle] at hf
    · rcases List.mem_cons.mp he with rfl | hmem
      · exact Nat.lt_of_not_le hle
      · refine ih ?_ e hmem
        simpa [hle] using hf

/-- If the dup search returns `t`, then `t` is the *first* kept slide in
iteration order within the threshold: the kept list splits around `t` with
every earlier entry farther than the threshold. -/
theorem findDup_eq_some_first {th : Nat} {h : List Bool}
    {kept : List (SlideInfo × List Bool)} {t : SlideInfo}
    (hf : findDup th h kept = some t) :
    ∃ pre ht post, kept = pre ++ (t, ht) :: post ∧
      hammingDist h ht ≤ th ∧ ∀ e ∈ pre, th < hammingDist h e.2 := by
  induction kept with
  | nil => cases hf
  | cons e' rest ih =>
    obtain ⟨t', ht'⟩ := e'
    unfold findDup at hf
    by_cases hle : hammingDist h ht' ≤ th
    · refine ⟨[], ht', rest, ?_, hle, by simp⟩
      simp only [hle, if_pos, Option.some.injEq] at hf
      simp [hf]
    · obtain ⟨pre, ht, post, heq, hdist, hpre⟩ := ih (by simpa [hle] using hf)
      refine ⟨(t', ht') :: pre, ht, post, by simp [heq], hdist, ?_⟩
      intro e he
      rcases List.mem_cons.mp he with rfl | hmem
      · exact Nat.lt_of_not_le hle
      · exact hpre e hmem

/-- If the dup search returns `t`, some kept entry carries `t` within the
threshold. -/
theorem findDup_mem {th : Nat} {h : List Bool}
    {kept : List (SlideInfo × List Bool)} {t : SlideInfo}
    (hf : findDup th h kept = some t) :
    ∃ ht, (t, ht) ∈ kept ∧ hammingDist h ht ≤ th := by
  obtain ⟨pre, ht, post, heq, hdist, _⟩ := findDup_eq_some_first hf
  exact ⟨ht, by simp [heq], hdist⟩

/-- The `hash_map` only ever grows: the initial map is a prefix of the
final one. -/
theorem dedupGo_kept_prefix (cfg : SlideConfig)
    (phashOf : String → Option (List Bool)) (slides : List SlideInfo) :
    ∀ kept, kept <+: (dedupGo cfg phashOf kept slides).2 := by
  induction slides with
  | nil => intro kept; exact List.prefix_refl kept
  | cons s rest ih =>
    intro kept
    cases hph : phashOf s.path with
    | none => rw [dedupGo_cons_err cfg phashOf kept s rest hph]; exact ih kept
    | some hb =>
      cases hf : findDup cfg.phash_threshold hb kept with
      | some t =>
        rw [dedupGo_cons_dup cfg phashOf kept s rest hb t hph hf]
        exact ih kept
      | none =>
        rw [dedupGo_cons_new cfg phashOf kept s rest hb hph hf]
        exact (List.prefix_append kept _).trans
          (ih (kept ++ [({ s with perceptual_hash := some hb }, hb)]))

/-- Every entry placed in the `hash_map` records exactly the hash computed
from its slide's path. -/
theorem dedupGo_kept_hash (cfg : SlideConfig)
    (phashOf : String → Option (List Bool)) (slides : List SlideInfo) :
    ∀ kept, (∀ e ∈ kept, phashOf e.1.path = some e.2) →
      ∀ e ∈ (dedupGo cfg phashOf kept slides).2, phashOf e.1.path = some e.2 := by
  induction slides with
  | nil => intro kept hk; exact hk
  | cons s rest ih =>
    intro kept hk
    cases hph : phashOf s.path with
    | none => rw [dedupGo_cons_err cfg phashOf kept s rest hph]; exact ih kept hk
    | some hb =>
      cases hf : findDup cfg.phash_threshold hb kept with
      | some t =>
        rw [dedupGo_cons_dup cfg phashOf kept s rest hb t hph hf]
        exact ih kept hk
      | none =>
        rw [dedupGo_cons_new cfg phashOf kept s rest hb hph hf]
        refine ih _ ?_
        intro e he
        rcases List.mem_append.mp he with hmem | hmem
        · exact hk e hmem
        · rcases List.mem_singleton.mp hmem with rfl
          exact hph

/-- Later `hash_map` entries are farther than the threshold from every
earlier entry (insertion only happens when the search found no match). -/
theorem dedupGo_kept_pairwise (cfg : SlideConfig)
    (phashOf : String → Option (List Bool)) (slides : List SlideInfo) :
    ∀ kept,
      List.Pairwise (fun a b => cfg.phash_threshold < hammingDist b.2 a.2) kept →
      List.Pairwise (fun a b => cfg.phash_threshold < hammingDist b.2 a.2)
        (dedupGo cfg phashOf kept slides).2 := by
  induction slides with
  | nil => intro kept hk; exact hk
  | cons s rest ih =>
    intro kept hk
    cases hph : phashOf s.path with
    | none => rw [dedupGo_cons_err cfg phashOf kept s rest hph]; exact ih kept hk
    | some hb =>
      cases hf : findDup cfg.phash_threshold hb kept with
      | some t =>
        rw [dedupGo_cons_dup cfg phashOf kept s rest hb t hph hf]
        exact ih kept hk
      | none =>
        rw [dedupGo_cons_new cfg phashOf kept s rest hb hph hf]
        refine ih _ ?_
        rw [List.pairwise_append]
        refine ⟨hk, List.pairwise_singleton _ _, ?_⟩
        intro a ha e he
        rcases List.mem_singleton.mp he with rfl
        exact findDup_eq_none_forall hf a ha

/-- A slide traced `dup t` was attributed by the first-match search against
the `hash_map` at its comparison time, which is a prefix of the final map;
and the hash it was compared with is the hash of its own path. -/
theorem dedupGo_dup_spec (cfg : SlideConfig)
    (phashOf : String → Option (List Bool)) (slides : List SlideInfo) :
    ∀ kept x t, (x, DedupOutcome.dup t) ∈ (dedupGo cfg phashOf kept slides).1 →
      ∃ hs km, phashOf x.path = some hs ∧
        km <+: (dedupGo cfg phashOf kept slides).2 ∧
        findDup cfg.phash_threshold hs km = some t := by
  induction slides with
  | nil => intro kept x t hx; cases hx
  | cons s rest ih =>
    intro kept x t hx
    cases hph : phashOf s.path with
    | none =>
      rw [dedupGo_cons_err cfg phashOf kept s rest hph] at hx ⊢
      rcases List.mem_cons.mp hx with heq | hmem
      · cases heq
      · exact ih kept x t hmem
    | some hb =>
      cases hf : findDup cfg.phash_threshold hb kept with
      | some t' =>
        rw [dedupGo_cons_dup cfg phashOf kept s rest hb t' hph hf] at hx ⊢
        by_cases hm : cfg.remove_duplicates = true
        · rw [if_pos hm] at hx
          rcases List.mem_cons.mp hx with heq | hmem
          · injection heq with h1 h2
            injection h2 with h3
            subst h1
            subst h3
            exact ⟨hb, kept, hph, dedupGo_kept_prefix cfg phashOf rest kept, hf⟩
          · exact ih kept x t hmem
        · rw [if_neg hm] at hx
          rcases List.mem_cons.mp hx with heq | hmem
          · injection heq with h1 h2
            injection h2 with h3
            subst h1
            subst h3
            exact ⟨hb, kept, hph, dedupGo_kept_prefix cfg phashOf rest kept, hf⟩
          · exact ih kept x t hmem
      | none =>
        rw [dedupGo_cons_new cfg phashOf kept s rest hb hph hf] at hx ⊢
        rcases List.mem_cons.mp hx with heq | hmem
        · cases heq
        · exact ih _ x t hmem

/-- A slide whose hash computation fails is traced `hashError`. -/
theorem dedupGo_err_mem (cfg : SlideConfig)
    (phashOf : String → Option (List Bool)) (slides : List SlideInfo) :
    ∀ kept (s : SlideInfo), s ∈ slides → phashOf s.path = none →
      (s, DedupOutcome.hashError) ∈ (dedupGo cfg phashOf kept slides).1 := by
  induction slides with
  | nil => intro kept s hs; cases hs
  | cons s0 rest ih =>
    intro kept s hs hn
    rcases List.mem_cons.mp hs with rfl | hmem
    · rw [dedupGo_cons_err cfg phashOf kept s rest hn]
      exact List.mem_cons_self _ _
    · cases hph : phashOf s0.path with
      | none =>
        rw [dedupGo_cons_err cfg phashOf kept s0 rest hph]
        exact List.mem_cons_of_mem _ (ih kept s hmem hn)
      | some hb =>
        cases hf : findDup cfg.phash_threshold hb kept with
        | some t =>
          rw [dedupGo_cons_dup cfg phashOf kept s0 rest hb t hph hf]
          exact List.mem_cons_of_mem _ (ih kept s hmem hn)
        | none =>
          rw [dedupGo_cons_new cfg phashOf kept s0 rest hb hph hf]
          exact List.mem_cons_of_mem _ (ih _ s hmem hn)

/-- Conversely, a trace entry whose slide has no computable hash can only
be a `hashError` entry: slides traced `kept` or `dup` carry a computed
hash on their (unchanged) path. -/
theorem dedupGo_outcome_of_none (cfg : SlideConfig)
    (phashOf : String → Option (List Bool)) (slides : List SlideInfo) :
    ∀ kept (x : SlideInfo) (o : DedupOutcome),
      (x, o) ∈ (dedupGo cfg phashOf kept slides).1 → phashOf x.path = none →
      o = DedupOutcome.hashError := by
  induction slides with
  | nil => intro kept x o hx; cases hx
  | cons s rest ih =>
    intro kept x o hx hn
    cases hph : phashOf s.path with
    | none =>
      rw [dedupGo_cons_err cfg phashOf kept s rest hph] at hx
      rcases List.mem_cons.mp hx with heq | hmem
      · cases heq; rfl
      · exact ih kept x o hmem hn
    | some hb =>
      cases hf : findDup cfg.phash_threshold hb kept with
      | some t =>
        rw [dedupGo_cons_dup cfg phashOf kept s rest hb t hph hf] at hx
        rcases List.mem_cons.mp hx with heq | hmem
        · exfalso
          have hxpath : x.path = s.path := by
            cases heq
            by_cases hm : cfg.remove_duplicates = true <;> simp [hm]
          rw [hxpath, hph] at hn
          cases hn
        · exact ih kept x o hmem hn
      | none =>
        rw [dedupGo_cons_new cfg phashOf kept s rest hb hph hf] at hx
        rcases List.mem_cons.mp hx with heq | hmem
        · exfalso
          have hxpath : x.path = s.path := by cases heq; rfl
          rw [hxpath, hph] at hn
          cases hn
        · exact ih _ x o hmem hn

/-- Every `hashError` trace entry appears in the `result` list. -/
theorem mem_dedupResult_of_err :
    ∀ (tr : List (SlideInfo × DedupOutcome)) (s : SlideInfo),
      (s, DedupOutcome.hashError) ∈ tr → s ∈ dedupResult tr := by
  intro tr
  induction tr with
  | nil => intro s hs; cases hs
  | cons e rest ih =>
    intro s hs
    obtain ⟨x, o⟩ := e
    rcases List.mem_cons.mp hs with heq | hmem
    · cases heq
      simp [dedupResult]
    · cases o with
      | kept => exact List.mem_cons_of_mem _ (ih s hmem)
      | hashError => exact List.mem_cons_of_mem _ (ih s hmem)
      | dup t => exact ih s hmem

/-- Setting `perceptual_hash` twice equals setting it once. -/
theorem perceptual_hash_set_twice (s : SlideInfo) (h h' : Option (List Bool)) :
    ({ { s with perceptual_hash := h } with perceptual_hash := h' } : SlideInfo) =
      { s with perceptual_hash := h' } := rfl

/-- Re-running the dedup loop (from the same initial `hash_map`) on the
`result` of a first run reproduces that result: every kept slide is still
farther than the threshold from of all earlier kept slides, and every
hash-error slide errors again. -/
theorem dedupGo_rerun (cfg : SlideConfig)
    (phashOf : String → Option (List Bool)) (slides : List SlideInfo) :
    ∀ kept,
      dedupResult (dedupGo cfg phashOf kept
        (dedupResult (dedupGo cfg phashOf kept slides).1)).1 =
      dedupResult (dedupGo cfg phashOf kept slides).1 := by
  induction slides with
  | nil => intro kept; simp [dedupGo_nil, dedupResult]
  | cons s rest ih =>
    intro kept
    cases hph : phashOf s.path with
    | none =>
      rw [dedupGo_cons_err cfg phashOf kept s rest hph]
      simp only [dedupResult]
      rw [dedupGo_cons_err cfg phashOf kept s _ hph]
      simp only [dedupResult]
      rw [ih kept]
    | some hb =>
      cases hf : findDup cfg.phash_threshold hb kept with
      | some t =>
        rw [dedupGo_cons_dup cfg phashOf kept s rest hb t hph hf]
        simp only [dedupResult]
        exact ih kept
      | none =>
        rw [dedupGo_cons_new cfg phashOf kept s rest hb hph hf]
        simp only [dedupResult]
        have hph' : phashOf ({ s with perceptual_hash := some hb } :
            SlideInfo).path = some hb := hph
        rw [dedupGo_cons_new cfg phashOf kept ({ s with perceptual_hash := some hb })
          _ hb hph' hf]
        simp only [dedupResult, perceptual_hash_set_twice]
        rw [ih]

/-- **C1 (code evaluated at the failing input).**  In mark mode
(`remove_duplicates = false`) with two slides of identical perceptual hash,
the dedup loop traces the second slide as a duplicate of the first and sets
its `is_duplicate_of` back-reference — yet the returned list contains only
the first slide: the marked duplicate is dropped from the output, because
`result.append` is guarded by `if not is_duplicate`. -/
theorem c1_mark_mode_drops_duplicate :
    deduplicate markConfig examplePhash [slideA, slideB] =
      [{ slideA with perceptual_hash := some [true, false] }] ∧
    ({ slideB with
        perceptual_hash := some [true, false],
        is_duplicate_of := some slideA.path },
      DedupOutcome.dup { slideA with perceptual_hash := some [true, false] }) ∈
      dedupTrace markConfig examplePhash [slideA, slideB] :=
  ⟨rfl, List.mem_cons_of_mem _ (List.mem_cons_self _ _)⟩

/-- **C6.** A slide traced as a duplicate has perceptual-hash Hamming
distance at most `phash_threshold` to the slide it is attributed to, and
that slide is the *first* already-kept slide in iteration order within the
threshold (the kept map at comparison time is a prefix of the final map
that splits around the attributed slide, with every earlier entry farther
than the threshold); conversely any two slides in the kept map are farther
apart than the threshold at the time the later one was compared. -/
theorem c6_dedup_distance_bound (cfg : SlideConfig)
    (phashOf : String → Option (List Bool)) (slides : List SlideInfo) :
    (∀ x t, (x, DedupOutcome.dup t) ∈ dedupTrace cfg phashOf slides →
      ∃ hs ht, phashOf x.path = some hs ∧ phashOf t.path = some ht ∧
        hammingDist hs ht ≤ cfg.phash_threshold ∧
        ∃ km pre post, km <+: dedupKept cfg phashOf slides ∧
          km = pre ++ (t, ht) :: post ∧
          ∀ e ∈ pre, cfg.phash_threshold < hammingDist hs e.2) ∧
    List.Pairwise (fun a b => cfg.phash_threshold < hammingDist b.2 a.2)
      (dedupKept cfg phashOf slides) := by
  constructor
  · intro x t hx
    obtain ⟨hs, km, hxs, hpre, hfd⟩ :=
      dedupGo_dup_spec cfg phashOf slides [] x t hx
    obtain ⟨pre, ht, post, heq, hdist, hfar⟩ := findDup_eq_some_first hfd
    have htmem : (t, ht) ∈ dedupKept cfg phashOf slides := by
      refine hpre.subset ?_
      simp [heq]
    have hth : phashOf t.path = some ht :=
      dedupGo_kept_hash cfg phashOf slides [] (by intro e he; cases he) _ htmem
    exact ⟨hs, ht, hxs, hth, hdist, km, pre, post, hpre, heq, hfar⟩
  · exact dedupGo_kept_pairwise cfg phashOf slides [] List.Pairwise.nil

/-- Witness for C6: in the default (remove-mode) configuration, the second
example slide is traced as a duplicate, and the theorem instantiates on it. -/
theorem c6_dedup_distance_bound_witness :
    (({ slideB with perceptual_hash := some [true, false] },
       DedupOutcome.dup { slideA with perceptual_hash := some [true, false] }) ∈
      dedupTrace {} examplePhash [slideA, slideB]) ∧
    (∃ hs ht,
      examplePhash ({ slideB with perceptual_hash := some [true, false] } :
        SlideInfo).path = some hs ∧
      examplePhash ({ slideA with perceptual_hash := some [true, false] } :
        SlideInfo).path = some ht ∧
      hammingDist hs ht ≤ SlideConfig.phash_threshold {} ∧
      ∃ km pre post, km <+: dedupKept {} examplePhash [slideA, slideB] ∧
        km = pre ++ ({ slideA with perceptual_hash := some [true, false] }, ht) :: post ∧
        ∀ e ∈ pre, SlideConfig.phash_threshold {} < hammingDist hs e.2) :=
  ⟨List.mem_cons_of_mem _ (List.mem_cons_self _ _),
   (c6_dedup_distance_bound {} examplePhash [slideA, slideB]).1 _ _
     (List.mem_cons_of_mem _ (List.mem_cons_self _ _))⟩

/-- **C7.** `deduplicate` is idempotent on its own output, in both mark and
remove mode (the hash of a slide is a function of its unchanged path, so it
recomputes to the same value on the second run). -/
theorem c7_dedup_idempotent (cfg : SlideConfig)
    (phashOf : String → Option (List Bool)) (slides : List SlideInfo) :
    deduplicate cfg phashOf (deduplicate cfg phashOf slides) =
      deduplicate cfg phashOf slides := by
  unfold deduplicate
  by_cases h0 : slides.isEmpty
  · simp [h0]
  · simp only [h0, Bool.false_eq_true, if_false]
    by_cases h1 : (dedupResult (dedupGo cfg phashOf [] slides).1).isEmpty
    · simp [h1]
    · simp only [h1, Bool.false_eq_true, if_false]
      exact dedupGo_rerun cfg phashOf slides []

/-- **C10.** A slide whose hash computation raises is kept in the output
list but never enters the kept-hash map: its only trace outcome is
`hashError` (so it is never removed or marked, in either mode), every
kept-map entry has a computable hash, and no slide is ever attributed as a
duplicate of it. -/
theorem c10_hash_error_kept (cfg : SlideConfig)
    (phashOf : String → Option (List Bool)) (slides : List SlideInfo)
    (s : SlideInfo) (hmem : s ∈ slides) (hnone : phashOf s.path = none) :
    s ∈ deduplicate cfg phashOf slides ∧
    (s, DedupOutcome.hashError) ∈ dedupTrace cfg phashOf slides ∧
    (∀ o, (s, o) ∈ dedupTrace cfg phashOf slides → o = DedupOutcome.hashError) ∧
    (∀ e ∈ dedupKept cfg phashOf slides, phashOf e.1.path ≠ none) ∧
    (∀ x t, (x, DedupOutcome.dup t) ∈ dedupTrace cfg phashOf slides →
      t.path ≠ s.path) := by
  have htr : (s, DedupOutcome.hashError) ∈ dedupTrace cfg phashOf slides :=
    dedupGo_err_mem cfg phashOf slides [] s hmem hnone
  have hkept : ∀ e ∈ dedupKept cfg phashOf slides, phashOf e.1.path = some e.2 :=
    dedupGo_kept_hash cfg phashOf slides [] (by intro e he; cases he)
  refine ⟨?_, htr, ?_, ?_, ?_⟩
  · unfold deduplicate
    have hne : slides.isEmpty = false := by
      cases slides with
      | nil => cases hmem
      | cons a l => rfl
    rw [hne]
    simp only [Bool.false_eq_true, if_false]
    exact mem_dedupResult_of_err _ s htr
  · intro o ho
    exact dedupGo_outcome_of_none cfg phashOf slides [] s o ho hnone
  · intro e he
    rw [hkept e he]
    intro hcontra
    cases hcontra
  · intro x t hx hpath
    obtain ⟨hs, km, hxs, hpre, hfd⟩ :=
      dedupGo_dup_spec cfg phashOf slides [] x t hx
    obtain ⟨ht, htmem, _⟩ := findDup_mem hfd
    have : phashOf t.path = some ht := hkept (t, ht) (hpre.subset htmem)
    rw [hpath, hnone] at this
    cases this

/-- Witness for C10: the example slide whose hash computation fails is kept
through a run that also contains a hashable slide. -/
theorem c10_hash_error_kept_witness :
    slideC ∈ [slideA, slideC] ∧ examplePhash slideC.path = none ∧
    (slideC ∈ deduplicate {} examplePhash [slideA, slideC] ∧
     (slideC, DedupOutcome.hashError) ∈ dedupTrace {} examplePhash [slideA, slideC] ∧
     (∀ o, (slideC, o) ∈ dedupTrace {} examplePhash [slideA, slideC] →
       o = DedupOutcome.hashError) ∧
     (∀ e ∈ dedupKept {} examplePhash [slideA, slideC],
       examplePhash e.1.path ≠ none) ∧
     (∀ x t, (x, DedupOutcome.dup t) ∈ dedupTrace {} examplePhash [slideA, slideC] →
       t.path ≠ slideC.path)) :=
  ⟨by decide, by decide,
   c10_hash_error_kept {} examplePhash [slideA, slideC] slideC
     (by decide) (by decide)⟩

/-! ### Transcript-alignment lemmas -/

theorem classTexts_cons (t wb wa : ℚ) (c : SegClass) (seg : TranscriptSegment)
    (rest : List TranscriptSegment) :
    classTexts t wb wa c (seg :: rest) =
      if segQualifies t wb wa seg && (segClassOf t seg == c) then
        cleanSegText seg.text :: classTexts t wb wa c rest
      else classTexts t wb wa c rest := by
  unfold classTexts
  rw [List.filter_cons]
  by_cases h : (segQualifies t wb wa seg && (segClassOf t seg == c)) = true
  · simp [h]
  · simp [h]

theorem classTexts_eq_nil (t wb wa : ℚ) (c : SegClass)
    {l : List TranscriptSegment}
    (h : ∀ seg ∈ l, segQualifies t wb wa seg = false) :
    classTexts t wb wa c l = [] := by
  unfold classTexts
  have : l.filter (fun seg => segQualifies t wb wa seg && (segClassOf t seg == c))
      = [] := by
    rw [List.filter_eq_nil_iff]
    intro a ha
    simp [h a ha]
  rw [this]
  rfl

/-- On a segment list sorted by `start` (the shape of real transcripts), the
`_find_context` loop classifies exactly the window-overlapping segments:
its three accumulated lists are the cleaned texts of the qualifying
segments of each class, in order. -/
theorem contextLoop_sorted (t wb wa : ℚ) :
    ∀ segments : List TranscriptSegment,
      segments.Pairwise (fun a b => a.start ≤ b.start) →
      contextLoop t wb wa segments =
        (classTexts t wb wa .before segments,
         classTexts t wb wa .during segments,
         classTexts t wb wa .after segments) := by
  intro segments
  induction segments with
  | nil => intro _; rfl
  | cons seg rest ih =>
    intro hsorted
    rw [List.pairwise_cons] at hsorted
    obtain ⟨hhead, hrest⟩ := hsorted
    unfold contextLoop
    by_cases h1 : seg.start + seg.duration < t - wb
    · rw [if_pos h1]
      have hq : segQualifies t wb wa seg = false := by
        unfold segQualifies
        rw [decide_eq_false (not_le.mpr h1)]
        rfl
      rw [ih hrest]
      rw [classTexts_cons, classTexts_cons, classTexts_cons]
      simp [hq]
    · rw [if_neg h1]
      by_cases h2 : seg.start > t + wa
      · rw [if_pos h2]
        have hall : ∀ x ∈ seg :: rest, segQualifies t wb wa x = false := by
          intro x hx
          rcases List.mem_cons.mp hx with rfl | hxm
          · unfold segQualifies
            rw [decide_eq_false (not_le.mpr h2)]
            simp
          · unfold segQualifies
            have : t + wa < x.start := lt_of_lt_of_le h2 (hhead x hxm)
            rw [decide_eq_false (not_le.mpr this)]
            simp
        rw [classTexts_eq_nil t wb wa _ hall, classTexts_eq_nil t wb wa _ hall,
          classTexts_eq_nil t wb wa _ hall]
      · rw [if_neg h2]
        have hq : segQualifies t wb wa seg = true := by
          unfold segQualifies
          rw [decide_eq_true (not_lt.mp h1), decide_eq_true (not_lt.mp h2)]
          rfl
        by_cases h3 : seg.start + seg.duration ≤ t
        · rw [if_pos h3]
          have hc : segClassOf t seg = SegClass.before := by
            unfold segClassOf
            rw [if_pos h3]
          rw [ih hrest]
          rw [classTexts_cons, classTexts_cons, classTexts_cons]
          simp [hq, hc]
        · rw [if_neg h3]
          by_cases h4 : seg.start ≥ t
          · rw [if_pos h4]
            have hc : segClassOf t seg = SegClass.after := by
              unfold segClassOf
              rw [if_neg h3, if_pos h4]
            rw [ih hrest]
            rw [classTexts_cons, classTexts_cons, classTexts_cons]
            simp [hq, hc]
          · rw [if_neg h4]
            have hc : segClassOf t seg = SegClass.during := by
              unfold segClassOf
              rw [if_neg h3, if_neg h4]
            rw [ih hrest]
            rw [classTexts_cons, classTexts_cons, classTexts_cons]
            simp [hq, hc]

/-- **C8 (amended).**  For a transcript whose segments are sorted by start
time, `_find_context` with the default 15-second windows classifies exactly
the segments whose `[start, start+duration]` interval overlaps
`[t-15, t+15]` — before (ends at or before `t`), during (spans `t`), after
(starts at or after `t`) — joining the last 4 before-texts, all
during-texts and the first 4 after-texts with spaces; and with no
transcript, `align_timestamps` returns the slides untouched (their
`transcript_context` dictionary stays empty rather than holding three
empty-string fields). -/
theorem c8_transcript_windowing (t : ℚ) (segments : List TranscriptSegment)
    (slides : List SlideInfo)
    (hsorted : segments.Pairwise (fun a b => a.start ≤ b.start)) :
    find_context t segments =
      ⟨joinSpace (lastN 4 (classTexts t 15 15 .before segments)),
       joinSpace (classTexts t 15 15 .during segments),
       joinSpace ((classTexts t 15 15 .after segments).take 4)⟩ ∧
    align_timestamps [] slides = slides := by
  constructor
  · unfold find_context
    rw [contextLoop_sorted t 15 15 segments hsorted]
  · rfl

/-- Witness for C8: a one-segment sorted transcript spanning the timestamp. -/
theorem c8_transcript_windowing_witness :
    ([⟨99, 2, "spans"⟩] : List TranscriptSegment).Pairwise
      (fun a b => a.start ≤ b.start) ∧
    (find_context 100 [⟨99, 2, "spans"⟩] =
      ⟨joinSpace (lastN 4 (classTexts 100 15 15 .before [⟨99, 2, "spans"⟩])),
       joinSpace (classTexts 100 15 15 .during [⟨99, 2, "spans"⟩]),
       joinSpace ((classTexts 100 15 15 .after [⟨99, 2, "spans"⟩]).take 4)⟩ ∧
     align_timestamps [] [slideA] = [slideA]) :=
  ⟨List.pairwise_singleton _ _,
   c8_transcript_windowing 100 [⟨99, 2, "spans"⟩] [slideA]
     (List.pairwise_singleton _ _)⟩

/-- **C8 (counterexample to the claim as stated).**  With an *unsorted*
segment list, the loop's `break` at the first segment starting after the
window discards a later segment that overlaps the window and spans the
timestamp: its text is missing from `during` (which the claim requires to
contain it).  And with no transcript, a slide's `transcript_context` is the
*empty* dictionary (`none`), not a record of three empty-string fields. -/
theorem c8_counterexample :
    (find_context 100 [⟨200, 1, "later"⟩, ⟨99, 2, "spans"⟩]).during = "" ∧
    segQualifies 100 15 15 ⟨99, 2, "spans"⟩ = true ∧
    segClassOf 100 ⟨99, 2, "spans"⟩ = SegClass.during ∧
    cleanSegText "spans" = "spans" ∧
    align_timestamps [] [slideA] = [slideA] ∧
    slideA.transcript_context = none ∧
    (∀ c : TranscriptContext, (none : Option TranscriptContext) ≠ some c) := by
  refine ⟨?_, ?_, ?_, rfl, rfl, rfl, ?_⟩
  · unfold find_context contextLoop
    norm_num [joinSpace]
    rfl
  · unfold segQualifies
    norm_num
  · unfold segClassOf
    norm_num
  · intro c h
    cases h

end YtKb
